import Mathlib

/-!
Verification development for the pest-web-debug repository.

The repository has two source files:
* `src/debugworker.rs` — the debugger core (`DebuggerContext`) and the worker
  message dispatcher (`Worker::handle_input`);
* `src/lib.rs` — the caller-facing session (`AppState` and `App::update`).

External collaborators (`pest_vm::Vm`, `pest_meta::parse_and_optimize`, the
yew message channel) are modelled at their boundary: the virtual machine is
represented by the trace of `(rule, position)` observer invocations it makes
plus its final `Result`, the grammar compiler by the `Result` it produces,
and `WorkerLink::respond` calls by the list of responded events.
Rust `HashSet<String>` is modelled as a duplicate-free `List String` with
membership, `VecDeque` as a `List` (`push_back` appends, `pop_front` drops
the head).
-/

namespace PestWebDebug

/-- Events that are sent from the debugger (`debugworker.rs` lines 12-24). -/
inductive DebuggerEvent where
  /-- A breakpoint encountered: rule name and position. -/
  | Breakpoint (rule : String) (pos : Nat)
  /-- The end of the input has been reached. -/
  | Eof
  /-- A parsing error encountered. -/
  | Error (msg : String)
  /-- Grammar rule names. -/
  | Rules (names : List String)
  deriving DecidableEq, Repr

/-- The slice of `pest_meta::optimizer::OptimizedRule` this crate consults:
only the rule name is ever read. -/
structure OptimizedRule where
  name : String
  deriving DecidableEq, Repr

/-- Debugger for pest grammars (`debugworker.rs` lines 27-32). -/
structure DebuggerContext where
  grammar : Option (List OptimizedRule)
  input : Option String
  breakpoints : List String
  deriving DecidableEq, Repr

/-- Insertion into the breakpoint `HashSet`, modelled as insert-if-absent on
a duplicate-free list. -/
def insertBp (bps : List String) (rule : String) : List String :=
  if rule ∈ bps then bps else bps ++ [rule]

/-- The listener closure passed to `Vm::new_with_listener`
(`debugworker.rs` lines 93-102): when the entered rule is in the breakpoint
set, push `Breakpoint(rule, pos)` onto the accumulated events; always report
`false` (never pause). -/
def listener (breakpoints : List String) (events : List DebuggerEvent)
    (rule : String) (pos : Nat) : List DebuggerEvent × Bool :=
  if rule ∈ breakpoints then (events ++ [DebuggerEvent.Breakpoint rule pos], false)
  else (events, false)

/-- The virtual machine invokes the listener once per rule entry, in entry
order; this folds the listener over the trace of `(rule, position)` entries,
threading the shared `events` accumulator. -/
def collectEvents (breakpoints : List String) (acc : List DebuggerEvent) :
    List (String × Nat) → List DebuggerEvent
  | [] => acc
  | e :: rest => collectEvents breakpoints (listener breakpoints acc e.1 e.2).1 rest

/-- The terminal event appended after the engine completes: `Eof` on parse
success, `Error` with the failure description otherwise. -/
def terminalOf : Except String Unit → DebuggerEvent
  | Except.ok _ => DebuggerEvent.Eof
  | Except.error e => DebuggerEvent.Error e

/-- `DebuggerContext::handle` (`debugworker.rs` lines 77-121): collect the
breakpoint events produced by the listener during the parse, then respond
with them followed by `Eof` (parse succeeded) or `Error` (parse failed).
The returned list is the sequence of `respond` calls, in order. -/
def handle (breakpoints : List String) (trace : List (String × Nat))
    (res : Except String Unit) : List DebuggerEvent :=
  let events := collectEvents breakpoints [] trace
  match res with
  | Except.ok _ => events ++ [DebuggerEvent.Eof]
  | Except.error error => events ++ [DebuggerEvent.Error error]

/-- `DebuggerContext::parse_grammar` (`debugworker.rs` lines 123-139): on
compiler failure, join the formatted messages of all underlying grammar
errors one per line under an `error parsing` header. The external
`parse_and_optimize` outcome is passed in, errors already formatted. -/
def parse_grammar (compiled : Except (List String) (List OptimizedRule)) :
    Except String (List OptimizedRule) :=
  match compiled with
  | Except.ok ast => Except.ok ast
  | Except.error errors =>
      Except.error ("error parsing\n\n" ++ String.intercalate "\n" errors)

/-- `DebuggerContext::load_grammar_direct` (`debugworker.rs` lines 36-40):
store the compiled grammar on success; the `?` operator returns the error
before any assignment, leaving the context untouched. -/
def load_grammar_direct (ctx : DebuggerContext)
    (compiled : Except (List String) (List OptimizedRule)) :
    DebuggerContext × Except String Unit :=
  match parse_grammar compiled with
  | Except.ok ast => ({ ctx with grammar := some ast }, Except.ok ())
  | Except.error e => (ctx, Except.error e)

/-- `DebuggerContext::load_input_direct` (`debugworker.rs` lines 43-45). -/
def load_input_direct (ctx : DebuggerContext) (input : String) : DebuggerContext :=
  { ctx with input := some input }

/-- `DebuggerContext::add_all_rules_breakpoints` (`debugworker.rs` lines
50-60): error when no grammar is loaded, otherwise insert every rule name. -/
def add_all_rules_breakpoints (ctx : DebuggerContext) :
    DebuggerContext × Except String Unit :=
  match ctx.grammar with
  | none => (ctx, Except.error "DebuggerError::GrammarNotOpened")
  | some ast =>
      ({ ctx with breakpoints := ast.foldl (fun bps r => insertBp bps r.name) ctx.breakpoints },
       Except.ok ())

/-- `DebuggerContext::add_breakpoint` (`debugworker.rs` lines 63-65). -/
def add_breakpoint (ctx : DebuggerContext) (rule : String) : DebuggerContext :=
  { ctx with breakpoints := insertBp ctx.breakpoints rule }

/-- `DebuggerContext::delete_breakpoint` (`debugworker.rs` lines 68-70). -/
def delete_breakpoint (ctx : DebuggerContext) (rule : String) : DebuggerContext :=
  { ctx with breakpoints := ctx.breakpoints.filter (fun x => decide (x ≠ rule)) }

/-- `DebuggerContext::delete_all_breakpoints` (`debugworker.rs` lines 73-75). -/
def delete_all_breakpoints (ctx : DebuggerContext) : DebuggerContext :=
  { ctx with breakpoints := [] }

/-- `DebuggerContext::run` (`debugworker.rs` lines 145-165): fail when no
grammar is loaded, then fail when no input is loaded, otherwise delegate to
`handle`. On success the returned list is the events responded by `handle`;
on failure nothing is responded and no parse is executed. -/
def run (ctx : DebuggerContext) (rule : String) (trace : List (String × Nat))
    (res : Except String Unit) : Except String (List DebuggerEvent) :=
  match ctx.grammar with
  | none => Except.error "DebuggerError::GrammarNotOpened"
  | some _ =>
      match ctx.input with
      | some _ => Except.ok (handle ctx.breakpoints trace res)
      | none => Except.error "DebuggerError::InputNotOpened"

/-- Possible messages that can be sent to the worker
(`debugworker.rs` lines 180-195). -/
inductive WorkerInput where
  | LoadGrammar (grammar : String)
  | LoadInput (input : String)
  | AddBreakpoint (rule : String)
  | DeleteBreakpoint (rule : String)
  | DeleteAllBreakpoints
  | AddAllRulesBreakpoints
  | Run (rule : String)
  deriving DecidableEq, Repr

/-- `Worker::handle_input` (`debugworker.rs` lines 213-260). Returns the
updated debugger context together with the list of `respond` calls made.
`compiled` is the external grammar-compiler outcome consulted by
`LoadGrammar`; `trace` and `res` are the external engine behaviour consulted
by `Run`. In the `LoadGrammar` success arm the source unwraps the freshly
stored grammar; `Option.getD` mirrors that unwrap (the grammar is `some`
there). In the `AddAllRulesBreakpoints` arm the `Result` is bound to `_`
and discarded: no response is made even on error. -/
def handle_input (ctx : DebuggerContext) (msg : WorkerInput)
    (compiled : Except (List String) (List OptimizedRule))
    (trace : List (String × Nat)) (res : Except String Unit) :
    DebuggerContext × List DebuggerEvent :=
  match msg with
  | WorkerInput.LoadGrammar _ =>
      match load_grammar_direct ctx compiled with
      | (c, Except.ok _) =>
          (c, [DebuggerEvent.Rules ((c.grammar.getD []).map (fun r => r.name))])
      | (c, Except.error e) => (c, [DebuggerEvent.Error e])
  | WorkerInput.LoadInput input => (load_input_direct ctx input, [])
  | WorkerInput.Run rule =>
      match run ctx rule trace res with
      | Except.ok events => (ctx, events)
      | Except.error e => (ctx, [DebuggerEvent.Error e])
  | WorkerInput.AddBreakpoint rule => (add_breakpoint ctx rule, [])
  | WorkerInput.DeleteBreakpoint rule => (delete_breakpoint ctx rule, [])
  | WorkerInput.DeleteAllBreakpoints => (delete_all_breakpoints ctx, [])
  | WorkerInput.AddAllRulesBreakpoints => ((add_all_rules_breakpoints ctx).1, [])

/-- Recogniser for `Breakpoint` events. -/
def DebuggerEvent.isBreakpoint : DebuggerEvent → Bool
  | DebuggerEvent.Breakpoint _ _ => true
  | _ => false

/-- Recogniser for terminal events (`Eof` or `Error`). -/
def DebuggerEvent.isTerminal : DebuggerEvent → Bool
  | DebuggerEvent.Eof => true
  | DebuggerEvent.Error _ => true
  | _ => false

/-- Events the caller-facing layer appends to its stepping queue
(`lib.rs` line 420, the catch-all arm): `Breakpoint` and `Eof` only. -/
def queueable : DebuggerEvent → Bool
  | DebuggerEvent.Breakpoint _ _ => true
  | DebuggerEvent.Eof => true
  | _ => false

/-- The state of the web debugger (`lib.rs` lines 16-33). `VecDeque` is a
`List` whose head is the front (the currently displayed event). -/
structure AppState where
  grammar : String
  input : String
  breakpoints : List (Bool × String)
  events : List DebuggerEvent
  to_run : String
  running : Bool
  error : Option String
  deriving DecidableEq, Repr

/-- The UI messages modelled here (`lib.rs` lines 76-97). The arms that only
read DOM elements (`GrammarChange`, `InputChange`, `SelectRuleToRun`,
`ChangeBreakpoint`) touch neither the event queue nor the running flag and
are outside the shallow embedding. -/
inductive Message where
  | Run
  | Continue
  | Stop
  | AddAllBreakpoints
  | RemoveAllBreakpoints
  | WorkerMsg (e : DebuggerEvent)
  deriving DecidableEq, Repr

/-- `App::update` (`lib.rs` lines 339-445), restricted to the modelled
messages; only the state transition is kept (the commands sent to the worker
are its inputs, modelled separately by `handle_input`).
* `Run` (lines 401-410): when no error is pending, set `running` and send the
  run command; otherwise only show the error modal (state unchanged).
* `WorkerMsg` (lines 411-425): `Rules` replaces the breakpoint list with all
  entries unchecked and clears the error; `Error` is stored in the error
  field; everything else is pushed onto the back of the event queue.
* `Continue` (lines 426-438): when the queue is nonempty, pop the front; if
  the new front is `Eof` or the queue became empty, pop again and clear
  `running`.
* `Stop` (lines 439-443): clear `running` and the queue.
* `AddAllBreakpoints` / `RemoveAllBreakpoints` (lines 381-400): tick or
  untick every breakpoint. -/
def update (s : AppState) : Message → AppState
  | Message.Run =>
      if s.error = none then { s with running := true } else s
  | Message.WorkerMsg m =>
      match m with
      | DebuggerEvent.Rules rules =>
          { s with breakpoints := rules.map (fun x => (false, x)), error := none }
      | DebuggerEvent.Error e => { s with error := some e }
      | m => { s with events := s.events ++ [m] }
  | Message.Continue =>
      match s.events with
      | [] => s
      | _ :: rest =>
          match rest with
          | DebuggerEvent.Eof :: rest2 => { s with events := rest2, running := false }
          | [] => { s with events := [], running := false }
          | _ => { s with events := rest }
  | Message.Stop => { s with running := false, events := [] }
  | Message.AddAllBreakpoints =>
      { s with breakpoints := s.breakpoints.map (fun x => (true, x.2)) }
  | Message.RemoveAllBreakpoints =>
      { s with breakpoints := s.breakpoints.map (fun x => (false, x.2)) }

/-! Helper lemmas shared by several claims. -/

/-- The listener fold equals a filter of the trace by breakpoint membership,
mapped to `Breakpoint` events, appended after the accumulator. -/
theorem collectEvents_eq (breakpoints : List String) (acc : List DebuggerEvent) :
    ∀ trace : List (String × Nat),
      collectEvents breakpoints acc trace =
        acc ++ (trace.filter (fun e => decide (e.1 ∈ breakpoints))).map
          (fun e => DebuggerEvent.Breakpoint e.1 e.2) := by
  intro trace
  induction trace generalizing acc with
  | nil => simp [collectEvents]
  | cons e rest ih =>
      by_cases h : e.1 ∈ breakpoints <;>
        simp [collectEvents, listener, h, ih, List.filter_cons]

/-- Closed form of `handle`: the filtered breakpoint trace followed by the
terminal event of the parse outcome. -/
theorem handle_eq (breakpoints : List String) (trace : List (String × Nat))
    (res : Except String Unit) :
    handle breakpoints trace res =
      (trace.filter (fun e => decide (e.1 ∈ breakpoints))).map
        (fun e => DebuggerEvent.Breakpoint e.1 e.2) ++ [terminalOf res] := by
  cases res <;> simp [handle, terminalOf, collectEvents_eq]

/-- C1: for every run with a loaded grammar and input, the observer is
consulted on every rule entry of the trace, and exactly the entries whose
rule name is in the breakpoint set contribute a `Breakpoint(rule, position)`
event, in entry order, each carrying the byte offset at time of entry;
entries into rules not in the set produce no event. -/
theorem c1_run_breakpoint_events (ctx : DebuggerContext) (g : List OptimizedRule)
    (inp rule : String) (trace : List (String × Nat)) (res : Except String Unit)
    (hg : ctx.grammar = some g) (hi : ctx.input = some inp) :
    run ctx rule trace res =
      Except.ok ((trace.filter (fun e => decide (e.1 ∈ ctx.breakpoints))).map
        (fun e => DebuggerEvent.Breakpoint e.1 e.2) ++ [terminalOf res]) := by
  simp [run, hg, hi, handle_eq]

/-- Witness for C1, on the concrete scenario of the spec: grammar with one
rule `digit`, input `"5"`, breakpoint on `digit`, a trace that enters
`digit` at offset 0 and `other` (not in the set) at offset 0, successful
parse. -/
theorem c1_run_breakpoint_events_witness :
    ({ grammar := some [{ name := "digit" }], input := some "5",
       breakpoints := ["digit"] } : DebuggerContext).grammar =
        some [{ name := "digit" }] ∧
    ({ grammar := some [{ name := "digit" }], input := some "5",
       breakpoints := ["digit"] } : DebuggerContext).input = some "5" ∧
    run { grammar := some [{ name := "digit" }], input := some "5",
          breakpoints := ["digit"] } "digit" [("digit", 0), ("other", 0)]
        (Except.ok ()) =
      Except.ok [DebuggerEvent.Breakpoint "digit" 0, DebuggerEvent.Eof] :=
  ⟨rfl, rfl,
    (c1_run_breakpoint_events _ [{ name := "digit" }] "5" "digit"
      [("digit", 0), ("other", 0)] (Except.ok ()) rfl rfl).trans
        (by simp [terminalOf])⟩

/-- C2: the event sequence produced by one run is zero or more `Breakpoint`
events followed by exactly one terminal event — `Eof` when the parse
succeeded, `Error(message)` when it failed; every `Breakpoint` precedes the
terminal event and no event follows it. -/
theorem c2_queue_shape (breakpoints : List String) (trace : List (String × Nat))
    (res : Except String Unit) :
    (∀ e ∈ (handle breakpoints trace res).dropLast, e.isBreakpoint = true) ∧
    (handle breakpoints trace res).getLast? = some (terminalOf res) ∧
    (terminalOf res).isTerminal = true := by
  refine ⟨?_, ?_, ?_⟩
  · intro e he
    rw [handle_eq] at he
    rw [List.dropLast_concat] at he
    simp only [List.mem_map] at he
    obtain ⟨x, _, rfl⟩ := he
    rfl
  · rw [handle_eq]
    simp
  · cases res <;> rfl

/-- Witness for C2, on a concrete failing run whose trace enters a
breakpointed rule and a non-breakpointed one. -/
theorem c2_queue_shape_witness :
    (∀ e ∈ (handle ["a"] [("a", 0), ("b", 1)] (Except.error "boom")).dropLast,
        e.isBreakpoint = true) ∧
    (handle ["a"] [("a", 0), ("b", 1)] (Except.error "boom")).getLast? =
      some (terminalOf (Except.error "boom")) ∧
    (terminalOf (Except.error "boom")).isTerminal = true :=
  c2_queue_shape ["a"] [("a", 0), ("b", 1)] (Except.error "boom")

/-- Membership in the set after an insertion. -/
theorem mem_insertBp (bps : List String) (rule n : String) :
    n ∈ insertBp bps rule ↔ n ∈ bps ∨ n = rule := by
  unfold insertBp
  split
  · rename_i h
    constructor
    · exact Or.inl
    · rintro (hn | rfl)
      · exact hn
      · exact h
  · simp

/-- Folding insertions over a rule list keeps every previous member. -/
theorem subset_foldl_insertBp (l : List OptimizedRule) :
    ∀ acc : List String, ∀ n ∈ acc,
      n ∈ l.foldl (fun bps r => insertBp bps r.name) acc := by
  induction l with
  | nil => intro acc n hn; simpa using hn
  | cons q rest ih =>
      intro acc n hn
      simp only [List.foldl_cons]
      exact ih _ n ((mem_insertBp acc q.name n).mpr (Or.inl hn))

/-- Folding insertions over a rule list inserts every rule name. -/
theorem name_mem_foldl_insertBp (l : List OptimizedRule) :
    ∀ acc : List String, ∀ r ∈ l,
      r.name ∈ l.foldl (fun bps x => insertBp bps x.name) acc := by
  induction l with
  | nil => intro acc r hr; simp at hr
  | cons q rest ih =>
      intro acc r hr
      simp only [List.foldl_cons]
      rcases List.mem_cons.mp hr with h | h
      · subst h
        exact subset_foldl_insertBp rest _ r.name
          ((mem_insertBp acc r.name r.name).mpr (Or.inr rfl))
      · exact ih _ r h

/-- C4: loading a grammar that fails to compile leaves the previously loaded
grammar (indeed the whole context) unchanged and returns an `Error` whose
message joins all underlying grammar errors one per line; a subsequent run
against the earlier grammar still succeeds. -/
theorem c4_failed_load_preserves_grammar (ctx : DebuggerContext)
    (errs : List String) (g : List OptimizedRule) (inp rule : String)
    (trace : List (String × Nat)) (res : Except String Unit)
    (hg : ctx.grammar = some g) (hi : ctx.input = some inp) :
    (load_grammar_direct ctx (Except.error errs)).1 = ctx ∧
    (load_grammar_direct ctx (Except.error errs)).2 =
      Except.error ("error parsing\n\n" ++ String.intercalate "\n" errs) ∧
    run (load_grammar_direct ctx (Except.error errs)).1 rule trace res =
      Except.ok (handle ctx.breakpoints trace res) := by
  refine ⟨rfl, rfl, ?_⟩
  simp [load_grammar_direct, parse_grammar, run, hg, hi]

/-- Witness for C4: a context holding a one-rule grammar and input survives
a failed load of a bad grammar with a two-line joined error, and a run still
succeeds. -/
theorem c4_failed_load_preserves_grammar_witness :
    ({ grammar := some [{ name := "digit" }], input := some "5",
       breakpoints := [] } : DebuggerContext).grammar = some [{ name := "digit" }] ∧
    ({ grammar := some [{ name := "digit" }], input := some "5",
       breakpoints := [] } : DebuggerContext).input = some "5" ∧
    (load_grammar_direct
        { grammar := some [{ name := "digit" }], input := some "5",
          breakpoints := [] } (Except.error ["e1", "e2"])).1 =
      { grammar := some [{ name := "digit" }], input := some "5",
        breakpoints := [] } ∧
    (load_grammar_direct
        { grammar := some [{ name := "digit" }], input := some "5",
          breakpoints := [] } (Except.error ["e1", "e2"])).2 =
      Except.error ("error parsing\n\n" ++ String.intercalate "\n" ["e1", "e2"]) ∧
    run (load_grammar_direct
          { grammar := some [{ name := "digit" }], input := some "5",
            breakpoints := [] } (Except.error ["e1", "e2"])).1
        "digit" [] (Except.ok ()) =
      Except.ok (handle [] [] (Except.ok ())) :=
  ⟨rfl, rfl,
    c4_failed_load_preserves_grammar _ ["e1", "e2"] [{ name := "digit" }] "5"
      "digit" [] (Except.ok ()) rfl rfl⟩

/-- C5: `run` fails with the grammar-not-loaded error when no grammar is
loaded, and with the input-not-loaded error when a grammar is loaded but no
input is; in either case no parse is executed — at the worker boundary the
only response is the `Error` event, no `Breakpoint` or `Eof`. -/
theorem c5_run_errors (ctx : DebuggerContext) (rule : String)
    (compiled : Except (List String) (List OptimizedRule))
    (trace : List (String × Nat)) (res : Except String Unit) :
    (ctx.grammar = none →
      run ctx rule trace res = Except.error "DebuggerError::GrammarNotOpened" ∧
      (handle_input ctx (WorkerInput.Run rule) compiled trace res).2 =
        [DebuggerEvent.Error "DebuggerError::GrammarNotOpened"] ∧
      (handle_input ctx (WorkerInput.Run rule) compiled trace res).1 = ctx) ∧
    (∀ g, ctx.grammar = some g → ctx.input = none →
      run ctx rule trace res = Except.error "DebuggerError::InputNotOpened" ∧
      (handle_input ctx (WorkerInput.Run rule) compiled trace res).2 =
        [DebuggerEvent.Error "DebuggerError::InputNotOpened"]) := by
  constructor
  · intro h
    refine ⟨?_, ?_, ?_⟩ <;> simp [run, handle_input, h]
  · intro g hg hi
    constructor <;> simp [run, handle_input, hg, hi]

/-- Witness for C5: both failure shapes on concrete contexts. -/
theorem c5_run_errors_witness :
    run { grammar := none, input := none, breakpoints := [] } "digit" []
        (Except.ok ()) = Except.error "DebuggerError::GrammarNotOpened" ∧
    run { grammar := some [{ name := "digit" }], input := none,
          breakpoints := [] } "digit" [] (Except.ok ()) =
      Except.error "DebuggerError::InputNotOpened" :=
  ⟨((c5_run_errors _ "digit" (Except.ok []) [] (Except.ok ())).1 rfl).1,
   ((c5_run_errors _ "digit" (Except.ok []) [] (Except.ok ())).2
      [{ name := "digit" }] rfl rfl).1⟩

/-- C8: with a grammar loaded, `add_all_rules_breakpoints` inserts every
rule name of the grammar into the breakpoint set (leaving grammar and input
alone); before any successful grammar load it returns the grammar-not-loaded
error and leaves the whole context, breakpoint set included, unchanged. -/
theorem c8_add_all_rules_breakpoints (ctx : DebuggerContext) :
    (ctx.grammar = none →
      add_all_rules_breakpoints ctx =
        (ctx, Except.error "DebuggerError::GrammarNotOpened")) ∧
    (∀ g, ctx.grammar = some g →
      (add_all_rules_breakpoints ctx).2 = Except.ok () ∧
      (∀ r ∈ g, r.name ∈ (add_all_rules_breakpoints ctx).1.breakpoints) ∧
      (add_all_rules_breakpoints ctx).1.grammar = ctx.grammar ∧
      (add_all_rules_breakpoints ctx).1.input = ctx.input) := by
  constructor
  · intro h
    simp [add_all_rules_breakpoints, h]
  · intro g hg
    refine ⟨?_, ?_, ?_, ?_⟩ <;> simp [add_all_rules_breakpoints, hg]
    intro r hr
    exact name_mem_foldl_insertBp g ctx.breakpoints r hr

/-- Witness for C8: the not-loaded error leaves a stale breakpoint set
untouched, and a loaded two-rule grammar gets both names inserted. -/
theorem c8_add_all_rules_breakpoints_witness :
    add_all_rules_breakpoints
        { grammar := none, input := none, breakpoints := ["stale"] } =
      ({ grammar := none, input := none, breakpoints := ["stale"] },
        Except.error "DebuggerError::GrammarNotOpened") ∧
    ({ name := "a" } : OptimizedRule) ∈
      [({ name := "a" } : OptimizedRule), { name := "b" }] ∧
    (OptimizedRule.mk "a").name ∈
      (add_all_rules_breakpoints
        { grammar := some [{ name := "a" }, { name := "b" }],
          input := none, breakpoints := [] }).1.breakpoints :=
  ⟨(c8_add_all_rules_breakpoints _).1 rfl,
   by decide,
   (((c8_add_all_rules_breakpoints _).2 [{ name := "a" }, { name := "b" }]
      rfl).2.1) { name := "a" } (by decide)⟩

/-- C10: the worker emits no event in reply to `AddAllRulesBreakpoints`; the
`Result` of `add_all_rules_breakpoints` is discarded, so even with no
grammar loaded (third conjunct) the response list is empty and the error is
silently dropped, the context left unchanged. -/
theorem c10_add_all_silent (ctx : DebuggerContext)
    (compiled : Except (List String) (List OptimizedRule))
    (trace : List (String × Nat)) (res : Except String Unit) :
    (handle_input ctx WorkerInput.AddAllRulesBreakpoints compiled trace res).2 = [] ∧
    (handle_input ctx WorkerInput.AddAllRulesBreakpoints compiled trace res).1 =
      (add_all_rules_breakpoints ctx).1 ∧
    handle_input { grammar := none, input := ctx.input, breakpoints := ctx.breakpoints }
        WorkerInput.AddAllRulesBreakpoints compiled trace res =
      ({ grammar := none, input := ctx.input, breakpoints := ctx.breakpoints }, []) := by
  refine ⟨rfl, rfl, ?_⟩
  simp [handle_input, add_all_rules_breakpoints]

/-- C7: `stop()` unconditionally clears the event queue and transitions the
session to `Idle` (`running = false`), whatever the current state and
however many events remained; all other fields are untouched. -/
theorem c7_stop_clears (s : AppState) :
    update s Message.Stop = { s with running := false, events := [] } := rfl

/-- Every modelled message preserves the property that the stepping queue
holds only `Breakpoint` and `Eof` events: the only message that appends is
`WorkerMsg` with such an event, and `Continue`/`Stop` only drop events. -/
theorem update_events_queueable (s : AppState) (m : Message)
    (hinv : ∀ x ∈ s.events, queueable x = true) :
    ∀ x ∈ (update s m).events, queueable x = true := by
  obtain ⟨g, i, b, ev, t0, r, err⟩ := s
  dsimp only at hinv
  cases m with
  | Run =>
      intro x hx
      have he : (update (AppState.mk g i b ev t0 r err) Message.Run).events = ev := by
        dsimp only [update]
        split <;> rfl
      rw [he] at hx
      exact hinv x hx
  | Stop => intro x hx; simp [update] at hx
  | AddAllBreakpoints => intro x hx; exact hinv x hx
  | RemoveAllBreakpoints => intro x hx; exact hinv x hx
  | WorkerMsg e =>
      cases e with
      | Breakpoint rl p =>
          intro x hx
          rcases List.mem_append.mp hx with hx | hx
          · exact hinv x hx
          · rw [List.mem_singleton.mp hx]; rfl
      | Eof =>
          intro x hx
          rcases List.mem_append.mp hx with hx | hx
          · exact hinv x hx
          · rw [List.mem_singleton.mp hx]; rfl
      | Error msg => intro x hx; exact hinv x hx
      | Rules names => intro x hx; exact hinv x hx
  | Continue =>
      cases ev with
      | nil => intro x hx; exact hinv x hx
      | cons e rest =>
          cases rest with
          | nil => intro x hx; simp [update] at hx
          | cons f rest2 =>
              cases f with
              | Eof =>
                  intro x hx
                  exact hinv x (List.mem_cons_of_mem e (List.mem_cons_of_mem _ hx))
              | Breakpoint rl p =>
                  intro x hx
                  exact hinv x (List.mem_cons_of_mem e hx)
              | Error msg =>
                  intro x hx
                  exact hinv x (List.mem_cons_of_mem e hx)
              | Rules names =>
                  intro x hx
                  exact hinv x (List.mem_cons_of_mem e hx)

/-- C9: the caller-facing layer routes incoming debugger events so that only
`Breakpoint` and `Eof` are appended to the stepping queue; an `Error` event
is stored in the error field with the queue untouched, and a `Rules` event
replaces the breakpoint list (all entries unchecked) and clears the error
field; hence a queue of queueable events stays free of `Error` and `Rules`
under every modelled message. -/
theorem c9_worker_msg_routing (s : AppState) (msg : String)
    (names : List String) (m : Message)
    (hinv : ∀ x ∈ s.events, queueable x = true) :
    (update s (Message.WorkerMsg (DebuggerEvent.Error msg))).events = s.events ∧
    (update s (Message.WorkerMsg (DebuggerEvent.Error msg))).error = some msg ∧
    (update s (Message.WorkerMsg (DebuggerEvent.Rules names))).events = s.events ∧
    (update s (Message.WorkerMsg (DebuggerEvent.Rules names))).breakpoints =
      names.map (fun n => (false, n)) ∧
    (update s (Message.WorkerMsg (DebuggerEvent.Rules names))).error = none ∧
    (∀ rl p, (update s (Message.WorkerMsg (DebuggerEvent.Breakpoint rl p))).events =
      s.events ++ [DebuggerEvent.Breakpoint rl p]) ∧
    (update s (Message.WorkerMsg DebuggerEvent.Eof)).events =
      s.events ++ [DebuggerEvent.Eof] ∧
    (∀ x ∈ (update s m).events, queueable x = true) :=
  ⟨rfl, rfl, rfl, rfl, rfl, fun _ _ => rfl, rfl,
   update_events_queueable s m hinv⟩

/-- Witness for C9: a queue holding one breakpoint keeps only queueable
events after an `Eof` arrives, and an `Error` lands in the error field. -/
theorem c9_worker_msg_routing_witness :
    (update
        { grammar := "", input := "", breakpoints := [],
          events := [DebuggerEvent.Breakpoint "a" 0], to_run := "",
          running := true, error := none }
        (Message.WorkerMsg (DebuggerEvent.Error "m"))).error = some "m" ∧
    (∀ x ∈ (update
        { grammar := "", input := "", breakpoints := [],
          events := [DebuggerEvent.Breakpoint "a" 0], to_run := "",
          running := true, error := none }
        (Message.WorkerMsg DebuggerEvent.Eof)).events, queueable x = true) :=
  ⟨(c9_worker_msg_routing
      { grammar := "", input := "", breakpoints := [],
        events := [DebuggerEvent.Breakpoint "a" 0], to_run := "",
        running := true, error := none } "m" ["r"]
      (Message.WorkerMsg DebuggerEvent.Eof) (by decide)).2.1,
   (c9_worker_msg_routing
      { grammar := "", input := "", breakpoints := [],
        events := [DebuggerEvent.Breakpoint "a" 0], to_run := "",
        running := true, error := none } "m" ["r"]
      (Message.WorkerMsg DebuggerEvent.Eof) (by decide)).2.2.2.2.2.2.2⟩

/-- A continue step on an empty queue is the identity. -/
theorem continue_of_empty (s : AppState) (h : s.events = []) :
    update s Message.Continue = s := by
  obtain ⟨g, i, b, ev, t0, r, err⟩ := s
  dsimp only at h
  subst h
  rfl

/-- A continue step on a nonempty queue strictly shrinks the queue. -/
theorem continue_length_lt (s : AppState) (h : s.events ≠ []) :
    (update s Message.Continue).events.length < s.events.length := by
  obtain ⟨g, i, b, ev, t0, r, err⟩ := s
  dsimp only at h ⊢
  match ev with
  | [] => exact absurd rfl h
  | e :: rest =>
      match rest with
      | [] => simp [update]
      | DebuggerEvent.Eof :: rest2 => simp [update]; omega
      | DebuggerEvent.Breakpoint rl p :: rest2 => simp [update]
      | DebuggerEvent.Error msg :: rest2 => simp [update]
      | DebuggerEvent.Rules names :: rest2 => simp [update]

/-- The continue step that empties a nonempty queue clears `running`. -/
theorem continue_run_false_of_empty (s : AppState) (h : s.events ≠ [])
    (h2 : (update s Message.Continue).events = []) :
    (update s Message.Continue).running = false := by
  obtain ⟨g, i, b, ev, t0, r, err⟩ := s
  dsimp only at h h2 ⊢
  match ev with
  | [] => exact absurd rfl h
  | e :: rest =>
      match rest with
      | [] => rfl
      | DebuggerEvent.Eof :: rest2 => rfl
      | DebuggerEvent.Breakpoint rl p :: rest2 => simp [update] at h2
      | DebuggerEvent.Error msg :: rest2 => simp [update] at h2
      | DebuggerEvent.Rules names :: rest2 => simp [update] at h2

/-- Iterating the continue step as many times as the queue is long drains
the queue completely and ends with `running = false`. -/
theorem drain_continue :
    ∀ n, ∀ s : AppState, s.events.length ≤ n → s.events ≠ [] →
      ((fun t => update t Message.Continue)^[n] s).events = [] ∧
      ((fun t => update t Message.Continue)^[n] s).running = false := by
  intro n
  induction n with
  | zero =>
      intro s hl hne
      exact absurd (List.length_eq_zero.mp (Nat.le_zero.mp hl)) hne
  | succ n ih =>
      intro s hl hne
      rw [Function.iterate_succ_apply]
      by_cases he : (update s Message.Continue).events = []
      · have hr := continue_run_false_of_empty s hne he
        have hfix : (fun t => update t Message.Continue)
            (update s Message.Continue) = update s Message.Continue :=
          continue_of_empty _ he
        rw [Function.iterate_fixed hfix n]
        exact ⟨he, hr⟩
      · have hlt := continue_length_lt s hne
        exact ih (update s Message.Continue) (by omega) he

/-- C3 (amended): `continue()` pops the displayed event and peeks the next;
if the next event is `Eof` or the queue is now empty, it is consumed and the
session transitions to `Idle` (`running = false`); otherwise — including
when the next event is an `Error`, which the code does not treat as
terminal — the session remains `Running` with the next event displayed.
Draining a nonempty queue by repeated `continue()` empties it within
queue-length steps and ends in `Idle`. -/
theorem c3_continue_amended (s : AppState) (h : s.events ≠ []) :
    (∀ e rest, s.events = e :: rest → rest.head? = some DebuggerEvent.Eof →
      update s Message.Continue = { s with events := rest.tail, running := false }) ∧
    (∀ e, s.events = [e] →
      update s Message.Continue = { s with events := [], running := false }) ∧
    (∀ e f rest, s.events = e :: f :: rest → f ≠ DebuggerEvent.Eof →
      update s Message.Continue = { s with events := f :: rest }) ∧
    ((fun t => update t Message.Continue)^[s.events.length] s).events = [] ∧
    ((fun t => update t Message.Continue)^[s.events.length] s).running = false := by
  refine ⟨?_, ?_, ?_, (drain_continue s.events.length s le_rfl h).1,
    (drain_continue s.events.length s le_rfl h).2⟩
  · obtain ⟨g, i, b, ev, t0, r, err⟩ := s
    rintro e rest h1 h2
    dsimp only at h1
    subst h1
    cases rest with
    | nil => simp at h2
    | cons f rest2 =>
        simp only [List.head?_cons, Option.some.injEq] at h2
        subst h2
        rfl
  · obtain ⟨g, i, b, ev, t0, r, err⟩ := s
    rintro e h1
    dsimp only at h1
    subst h1
    rfl
  · obtain ⟨g, i, b, ev, t0, r, err⟩ := s
    rintro e f rest h1 hf
    dsimp only at h1
    subst h1
    cases f with
    | Eof => exact absurd rfl hf
    | Breakpoint rl p => rfl
    | Error msg => rfl
    | Rules names => rfl

/-- Witness for C3 (amended): a queue `[Breakpoint, Eof]` is consumed to an
`Idle` session by one continue step. -/
theorem c3_continue_amended_witness :
    update
        { grammar := "", input := "", breakpoints := [],
          events := [DebuggerEvent.Breakpoint "a" 0, DebuggerEvent.Eof],
          to_run := "", running := true, error := none } Message.Continue =
      { grammar := "", input := "", breakpoints := [], events := [],
        to_run := "", running := false, error := none } :=
  (c3_continue_amended
      { grammar := "", input := "", breakpoints := [],
        events := [DebuggerEvent.Breakpoint "a" 0, DebuggerEvent.Eof],
        to_run := "", running := true, error := none }
      (by decide)).1 (DebuggerEvent.Breakpoint "a" 0) [DebuggerEvent.Eof] rfl rfl

/-- C3 counterexample: with an `Error` event next in the queue, a continue
step leaves the session `Running` with the `Error` displayed; the claim,
which calls `Error` a terminal event that is consumed with a transition to
`Idle`, predicts `running = false` and an emptied queue here. -/
theorem c3_continue_counterexample :
    ¬ ((update
          { grammar := "", input := "", breakpoints := [],
            events := [DebuggerEvent.Breakpoint "a" 0, DebuggerEvent.Error "m"],
            to_run := "", running := true, error := none }
          Message.Continue).running = false ∧
       (update
          { grammar := "", input := "", breakpoints := [],
            events := [DebuggerEvent.Breakpoint "a" 0, DebuggerEvent.Error "m"],
            to_run := "", running := true, error := none }
          Message.Continue).events = []) := by decide

/-- C6 (amended): from `Idle` (no pending error, drained queue), `run(rule)`
transitions to `Running` and sends the run command; each `Breakpoint` or
`Eof` the worker then delivers is appended to the queue, the first becoming
the displayed event. A first event that is already terminal does not resolve
the session to `Idle` immediately: a first `Eof` stays displayed with the
session still `Running` until the next `continue()` consumes it and clears
`running`, and a first `Error` is stored in the error field with the queue
untouched and the session left `Running`. -/
theorem c6_run_amended (s : AppState) (he : s.error = none)
    (hr : s.running = false) (hq : s.events = []) :
    (update s Message.Run).running = true ∧
    (update s Message.Run).events = [] ∧
    (update s Message.Run).error = none ∧
    (∀ rl p,
      (update (update s Message.Run)
        (Message.WorkerMsg (DebuggerEvent.Breakpoint rl p))).events =
          [DebuggerEvent.Breakpoint rl p] ∧
      (update (update s Message.Run)
        (Message.WorkerMsg (DebuggerEvent.Breakpoint rl p))).running = true) ∧
    (update (update s Message.Run) (Message.WorkerMsg DebuggerEvent.Eof)).events =
      [DebuggerEvent.Eof] ∧
    (update (update s Message.Run) (Message.WorkerMsg DebuggerEvent.Eof)).running =
      true ∧
    (update (update (update s Message.Run) (Message.WorkerMsg DebuggerEvent.Eof))
        Message.Continue).running = false ∧
    (update (update (update s Message.Run) (Message.WorkerMsg DebuggerEvent.Eof))
        Message.Continue).events = [] ∧
    (∀ m,
      (update (update s Message.Run)
        (Message.WorkerMsg (DebuggerEvent.Error m))).error = some m ∧
      (update (update s Message.Run)
        (Message.WorkerMsg (DebuggerEvent.Error m))).events = [] ∧
      (update (update s Message.Run)
        (Message.WorkerMsg (DebuggerEvent.Error m))).running = true) := by
  obtain ⟨g, i, b, ev, t0, r, err⟩ := s
  dsimp only at he hr hq
  subst he
  subst hr
  subst hq
  exact ⟨rfl, rfl, rfl, fun _ _ => ⟨rfl, rfl⟩, rfl, rfl, rfl, rfl,
    fun _ => ⟨rfl, rfl, rfl⟩⟩

/-- Witness for C6 (amended), on a concrete idle state: after `Run` and a
first worker event `Eof`, the session is still `Running` with `Eof`
displayed, and the following continue step reaches `Idle`. -/
theorem c6_run_amended_witness :
    (update
        { grammar := "", input := "", breakpoints := [], events := [],
          to_run := "", running := false, error := none } Message.Run).running =
      true ∧
    (update (update
        { grammar := "", input := "", breakpoints := [], events := [],
          to_run := "", running := false, error := none } Message.Run)
        (Message.WorkerMsg DebuggerEvent.Eof)).events = [DebuggerEvent.Eof] ∧
    (update (update
        { grammar := "", input := "", breakpoints := [], events := [],
          to_run := "", running := false, error := none } Message.Run)
        (Message.WorkerMsg DebuggerEvent.Eof)).running = true ∧
    (update (update (update
        { grammar := "", input := "", breakpoints := [], events := [],
          to_run := "", running := false, error := none } Message.Run)
        (Message.WorkerMsg DebuggerEvent.Eof)) Message.Continue).running = false :=
  ⟨(c6_run_amended
      { grammar := "", input := "", breakpoints := [], events := [],
        to_run := "", running := false, error := none } rfl rfl rfl).1,
   (c6_run_amended
      { grammar := "", input := "", breakpoints := [], events := [],
        to_run := "", running := false, error := none } rfl rfl rfl).2.2.2.2.1,
   (c6_run_amended
      { grammar := "", input := "", breakpoints := [], events := [],
        to_run := "", running := false, error := none } rfl rfl rfl).2.2.2.2.2.1,
   (c6_run_amended
      { grammar := "", input := "", breakpoints := [], events := [],
        to_run := "", running := false, error := none } rfl rfl rfl).2.2.2.2.2.2.1⟩

/-- C6 counterexample: from the idle state, after `run` and a first worker
event that is already terminal (`Eof`), the session has `running = true`;
the claim, which says the session resolves to `Idle` immediately after
delivering a terminal first event, predicts `running = false`. -/
theorem c6_run_counterexample :
    ¬ ((update (update
          { grammar := "", input := "", breakpoints := [], events := [],
            to_run := "", running := false, error := none } Message.Run)
          (Message.WorkerMsg DebuggerEvent.Eof)).running = false) := by decide

end PestWebDebug
